import Mathlib

/-!
Shallow embedding of the patinkinator repository (src/patinkin_extract.py and
src/patinkin_detect.py).  Python machine integers are modelled as `ℤ`, Python
floats as `ℚ` (all arithmetic appearing in the claims is exact: sums,
differences, products, divisions and comparisons of decimal literals, so the
rational model agrees with IEEE evaluation on every input used below), and
fallible Python code (which raises) is modelled with `Option`.
-/

namespace Patinkin

/-- Python `int(q)` on a float: truncation toward zero. -/
def pyTrunc (q : ℚ) : ℤ := if q < 0 then -⌊-q⌋ else ⌊q⌋

/-- Python `round(q)` on a float: round-half-to-even (banker's rounding). -/
def pyRound (q : ℚ) : ℤ :=
  if q - ⌊q⌋ = 1 / 2 then (if ⌊q⌋ % 2 = 0 then ⌊q⌋ else ⌊q⌋ + 1) else round q

/-- `midpoint` from src/patinkin_extract.py: sorts the two elements, then
computes `(b - a) * 0.5 + a` on the sorted pair. -/
def pyMidpoint (a b : ℚ) : ℚ := (max a b - min a b) * (1 / 2) + min a b

/-- `Rectangle` from src/patinkin_extract.py: axis-aligned box
`x_min` (left), `y_min` (top), `x_max` (right), `y_max` (bottom). -/
structure Rectangle where
  x_min : ℚ
  y_min : ℚ
  x_max : ℚ
  y_max : ℚ
deriving DecidableEq

/-- `Rectangle.center`: `(midpoint(x_min, x_max), midpoint(y_min, y_max))`. -/
def Rectangle.center (r : Rectangle) : ℚ × ℚ :=
  (pyMidpoint r.x_min r.x_max, pyMidpoint r.y_min r.y_max)

/-- `Rectangle.center_to_bottom_right`: signed offset from center to the
bottom-right corner. -/
def Rectangle.center_to_bottom_right (r : Rectangle) : ℚ × ℚ :=
  (r.x_max - r.center.1, r.y_max - r.center.2)

/-- `Rectangle.center_to_top_left`: signed offset from center to the
top-left corner. -/
def Rectangle.center_to_top_left (r : Rectangle) : ℚ × ℚ :=
  (r.x_min - r.center.1, r.y_min - r.center.2)

/-- `Rectangle.scale_from_center(w=1.0, h=None)`.  The Python body computes
`(sx, sy) = (w, (h or w))`: `h or w` evaluates to `w` not only when `h` is
`None` (omitted) but also when `h == 0` (falsy).  `h : Option ℚ` models the
optional argument; `some 0` therefore also selects `w`. -/
def Rectangle.scale_from_center (r : Rectangle) (w : ℚ) (h : Option ℚ) : Rectangle :=
  let cx := pyMidpoint r.x_min r.x_max
  let cy := pyMidpoint r.y_min r.y_max
  let halfx := r.x_max - cx
  let halfy := r.y_max - cy
  let sx := w
  let sy := match h with
    | none => w
    | some hv => if hv = 0 then w else hv
  Rectangle.mk (cx - halfx * sx) (cy - halfy * sy) (cx + halfx * sx) (cy + halfy * sy)

/-- `Rectangle.clip_to(patinkin_data)`: clamps `x_min, y_min` to `≥ 0` and
`x_max, y_max` to the frame bounds `W, H`; the opposite corner is never
touched. -/
def Rectangle.clip_to (r : Rectangle) (W H : ℚ) : Rectangle :=
  Rectangle.mk
    (if r.x_min > 0 then r.x_min else 0)
    (if r.y_min > 0 then r.y_min else 0)
    (if r.x_max < W then r.x_max else W)
    (if r.y_max < H then r.y_max else H)

/-- `Rectangle.round()`: rounds all four coordinates with Python `round`
(half-to-even); the result is a rectangle with integral coordinates. -/
def Rectangle.round (r : Rectangle) : Rectangle :=
  Rectangle.mk (pyRound r.x_min) (pyRound r.y_min) (pyRound r.x_max) (pyRound r.y_max)

/-- `PatinkinDetection`: a matched frame record.  The constructor receives
`(frame, top, right, bottom, left)` and stores
`Rectangle(left, top, right, bottom)`. -/
structure PatinkinDetection where
  frame : ℤ
  rect : Rectangle
deriving DecidableEq

/-- Build a `PatinkinDetection` the way the Python constructor does, from the
`(frame, top, right, bottom, left)` argument order. -/
def PatinkinDetection.ofLog (frame top right bottom left : ℤ) : PatinkinDetection :=
  ⟨frame, Rectangle.mk (left : ℚ) (top : ℚ) (right : ℚ) (bottom : ℚ)⟩

/-- Loop body of `PatinkinData.grouped`.  State: `last` is `last_frame_no`,
`group` is the open `detection_group`.  A split (`(frame - last)/fps > T`)
emits the open group only when its length exceeds 1; after the loop the final
open group is emitted whenever it is non-empty (the Python code checks only
`if detection_group:`, with no length test). -/
def groupedAux (fps T : ℚ) : ℤ → List PatinkinDetection → List PatinkinDetection →
    List (List PatinkinDetection)
  | _, group, [] => if group = [] then [] else [group]
  | last, group, d :: ds =>
      if ((d.frame - last : ℤ) : ℚ) / fps > T then
        (if 1 < group.length then [group] else []) ++ groupedAux fps T d.frame [d] ds
      else
        groupedAux fps T d.frame (group ++ [d]) ds

/-- `PatinkinData.grouped(max_gap_seconds)`: the gap threshold is clamped to
at least one frame interval (`max(max_gap_seconds, 1.0 / fps)`), and the walk
starts with `last_frame_no = 0` and an empty open group. -/
def grouped (fps maxGapSeconds : ℚ) (dets : List PatinkinDetection) :
    List (List PatinkinDetection) :=
  groupedAux fps (max maxGapSeconds (1 / fps)) 0 [] dets

/-- `PatinkinDetectionGroup.frame_start`: frame of the first detection
(`detections[0]`, which in Python requires a non-empty list). -/
def frame_start (dets : List PatinkinDetection) (h : dets ≠ []) : ℤ :=
  (dets.head h).frame

/-- `PatinkinDetectionGroup.frame_end`: frame of the last detection
(`detections[-1]`). -/
def frame_end (dets : List PatinkinDetection) (h : dets ≠ []) : ℤ :=
  (dets.getLast h).frame

/-- `PatinkinDetectionGroup.frames`: `frame_end - frame_start`. -/
def framesSpan (dets : List PatinkinDetection) (h : dets ≠ []) : ℤ :=
  frame_end dets h - frame_start dets h

/-- `PatinkinDetectionGroup.time_start_seconds`: `detections[0].frame / fps`. -/
def time_start_seconds (fps : ℚ) (dets : List PatinkinDetection) (h : dets ≠ []) : ℚ :=
  (frame_start dets h : ℚ) / fps

/-- `PatinkinDetectionGroup.as_ffmpeg_seek(pad_seconds)`: computes
`secs = time_start_seconds - pad_seconds`, then `m, s = divmod(secs, 60)` and
`h, m = divmod(m, 60)` (Python float `divmod(x, n)` is
`(⌊x / n⌋, x - n * ⌊x / n⌋)`), and formats `h:m:s`.  The model returns the
`(h, m, s)` triple that is formatted. -/
def as_ffmpeg_seek (fps : ℚ) (dets : List PatinkinDetection) (h : dets ≠ [])
    (padSeconds : ℚ) : ℚ × ℚ × ℚ :=
  let secs := time_start_seconds fps dets h - padSeconds
  let m : ℚ := ⌊secs / 60⌋
  let s := secs - 60 * m
  let hh : ℚ := ⌊m / 60⌋
  let mm := m - 60 * hh
  (hh, mm, s)

/-- `pad_frames` in `PatinkinData.extract_ffmpeg`:
`int(pad_secs * self.fps)` (truncation toward zero, not rounding). -/
def extract_pad_frames (fps padSecs : ℚ) : ℤ := pyTrunc (padSecs * fps)

/-- The frame-count field of the output name built by
`PatinkinData.extract_ffmpeg`: `group.frames + pad_frames * 2`. -/
def extract_out_frames (fps : ℚ) (dets : List PatinkinDetection) (h : dets ≠ [])
    (padSecs : ℚ) : ℤ :=
  framesSpan dets h + extract_pad_frames fps padSecs * 2

/-! ### Detection log loader (`PatinkinData.__init__`)

File contents are modelled as `List Char`.  Python's file iteration yields the
text between newline terminators; each yielded line is later `strip`ped, so
dropping the `'\n'` terminators when splitting loses nothing. -/

/-- Split a character list on every occurrence of `c` (the separators are
dropped); always returns at least one (possibly empty) chunk, exactly like
Python `str.split(c)`. -/
def splitOnChar (c : Char) : List Char → List (List Char)
  | [] => [[]]
  | x :: xs =>
      if x = c then [] :: splitOnChar c xs
      else
        match splitOnChar c xs with
        | [] => [[x]]
        | g :: gs => (x :: g) :: gs

/-- Whitespace characters removed by Python `str.strip()` that can occur in a
detection log (space, tab, newline, carriage return). -/
def pyIsSpace (c : Char) : Bool := c = ' ' || c = '\t' || c = '\n' || c = '\r'

/-- Python `str.strip()`: drop leading and trailing whitespace. -/
def pyStrip (l : List Char) : List Char :=
  ((l.dropWhile pyIsSpace).reverse.dropWhile pyIsSpace).reverse

/-- Decimal digit value, `none` for a non-digit. -/
def digitVal (c : Char) : Option ℕ :=
  if '0' ≤ c ∧ c ≤ '9' then some (c.toNat - 48) else none

/-- Accumulate decimal digits; fails on any non-digit character. -/
def parseDigits : ℕ → List Char → Option ℕ
  | acc, [] => some acc
  | acc, c :: cs =>
      match digitVal c with
      | some d => parseDigits (acc * 10 + d) cs
      | none => none

/-- Python `int(s)` on a stripped string: an optional sign followed by at
least one decimal digit; everything else (in particular the empty string)
raises, modelled as `none`. -/
def pyInt : List Char → Option ℤ
  | [] => none
  | '-' :: cs => if cs = [] then none else (parseDigits 0 cs).map (fun n => -(n : ℤ))
  | '+' :: cs => if cs = [] then none else (parseDigits 0 cs).map (fun n => (n : ℤ))
  | cs => (parseDigits 0 cs).map (fun n => (n : ℤ))

/-- `read_line_ints` from `PatinkinData.__init__`:
`[int(x.strip()) for x in line.split('\t')]`; any failing field raises. -/
def read_line_ints (line : List Char) : Option (List ℤ) :=
  (splitOnChar '\t' line).mapM (fun f => pyInt (pyStrip f))

/-- Python file iteration over `content`: the chunks between newlines, where
a final empty chunk (the artifact of a terminating `'\n'`) is not a line. -/
def pyFileLines (chunks : List (List Char)) : List (List Char) :=
  if chunks.getLast? = some [] then chunks.dropLast else chunks

/-- Parsed `PatinkinData` state: header metadata plus the detection list. -/
structure PatinkinDataModel where
  fps : ℤ
  width : ℤ
  height : ℤ
  detections : List PatinkinDetection
deriving DecidableEq

/-- One detection line: exactly five integers
`frame, top, right, bottom, left` (the Python constructor unpacks exactly
five arguments). -/
def parseDetectionLine (line : List Char) : Option PatinkinDetection :=
  (read_line_ints line).bind fun ns =>
    match ns with
    | [frame, top, right, bottom, left] => some (PatinkinDetection.ofLog frame top right bottom left)
    | _ => none

/-- The header unpacking
`(self.fps, self.width, self.height) = read_line_ints(f.readline())`:
exactly three integers, anything else raises. -/
def parseHeaderLine (line : List Char) : Option (ℤ × ℤ × ℤ) :=
  match read_line_ints line with
  | some [fps, w, h] => some (fps, w, h)
  | _ => none

/-- `PatinkinData.__init__` body over the file's lines: the first line
unpacks into exactly three integers `(fps, width, height)`; every further
line becomes a `PatinkinDetection` from exactly five integers.  Any parse
failure (Python `ValueError` from `int('')`, or an unpacking error) yields
`none`; an empty file has no parsable header either. -/
def loadLines : List (List Char) → Option PatinkinDataModel
  | [] => none
  | header :: rest =>
      (parseHeaderLine header).bind fun m =>
        (rest.mapM parseDetectionLine).map fun dets =>
          ⟨m.1, m.2.1, m.2.2, dets⟩

/-- `PatinkinData.__init__`: read the log file's lines and parse them. -/
def loadPatinkinData (content : List Char) : Option PatinkinDataModel :=
  loadLines (pyFileLines (splitOnChar '\n' content))

/-! ### Detection recorder (`process_video` in src/patinkin_detect.py)

The video capture and the face-recognition oracle are opaque collaborators:
a video is modelled as the list of per-frame observations, each carrying the
faces found in that frame together with the oracle's verdict
(`compare_faces` finding `True`) and the face location at the downscaled
resolution. -/

/-- One face observation in a frame: the oracle's match verdict and the
`(top, right, bottom, left)` location in downscaled coordinates. -/
structure FaceObs where
  matched : Bool
  top : ℤ
  right : ℤ
  bottom : ℤ
  left : ℤ
deriving DecidableEq

/-- One frame's observations. -/
structure FrameObs where
  faces : List FaceObs
deriving DecidableEq

/-- One record appended to the detection log:
`frame, top, right, bottom, left`. -/
structure DetRecord where
  frame : ℤ
  top : ℤ
  right : ℤ
  bottom : ℤ
  left : ℤ
deriving DecidableEq

/-- The `for index, face_encoding in enumerate(face_encodings)` loop:
a matching face stores its location in `matched_location` and sets
`skip_frames = 1`; a non-matching face sets `skip_frames = 2` (without
clearing `matched_location`). -/
def scanFaces : List FaceObs → Option FaceObs → ℕ → Option FaceObs × ℕ
  | [], m, s => (m, s)
  | f :: fs, m, _ =>
      if f.matched then scanFaces fs (some f) 1 else scanFaces fs m 2

/-- The frame loop of `process_video`.  `skip` is `skip_frames`, `pos` is
`cap.get(CAP_PROP_POS_FRAMES)` after the `cap.read()` (it starts at 1 and
advances by one per frame).  When `skip = 0` the oracle runs and, if
`matched_location` is set, one record is written for frame `pos` with every
coordinate upscaled by `int(x * (1.0 / scale_by))`.  At the end of each
iteration `skip_frames` decrements, saturating at 0. -/
def processAux (inv : ℚ) : ℕ → ℤ → List FrameObs → List DetRecord
  | _, _, [] => []
  | skip, pos, fr :: frs =>
      if skip = 0 then
        let ms := scanFaces fr.faces none 0
        (match ms.1 with
          | some f =>
              [⟨pos, pyTrunc ((f.top : ℚ) * inv), pyTrunc ((f.right : ℚ) * inv),
                pyTrunc ((f.bottom : ℚ) * inv), pyTrunc ((f.left : ℚ) * inv)⟩]
          | none => []) ++ processAux inv (ms.2 - 1) (pos + 1) frs
      else
        processAux inv (skip - 1) (pos + 1) frs

/-- `process_video`: `scale_by = min(1.0, min(300.0 / width, 300.0 / height))`
and the records are upscaled by `1.0 / scale_by`. -/
def process_video (width height : ℚ) (obs : List FrameObs) : List DetRecord :=
  let scale_by := min 1 (min (300 / width) (300 / height))
  processAux (1 / scale_by) 0 1 obs

/-! ### Helper lemmas -/

/-- The sort-then-average `midpoint` of the source equals the arithmetic
mean. -/
theorem pyMidpoint_eq (a b : ℚ) : pyMidpoint a b = (a + b) / 2 := by
  rcases le_total a b with h | h
  · simp only [pyMidpoint, max_eq_right h, min_eq_left h]; ring
  · simp only [pyMidpoint, max_eq_left h, min_eq_right h]; ring

theorem floor_le_pyRound (q : ℚ) : ⌊q⌋ ≤ pyRound q := by
  unfold pyRound
  split
  · split
    · exact le_refl _
    · exact (Int.le_add_one (le_refl _))
  · rw [round_eq]
    exact Int.floor_mono (by linarith)

theorem pyRound_le_floor_add_one (q : ℚ) : pyRound q ≤ ⌊q⌋ + 1 := by
  unfold pyRound
  split
  · split
    · exact Int.le_add_one (le_refl _)
    · exact le_refl _
  · rw [round_eq]
    calc ⌊q + 1 / 2⌋ ≤ ⌊q + 1⌋ := Int.floor_mono (by linarith)
      _ = ⌊q⌋ + 1 := by rw [Int.floor_add_one]

/-- Python `round` is monotone, hence preserves coordinate order. -/
theorem pyRound_mono {a b : ℚ} (hab : a ≤ b) : pyRound a ≤ pyRound b := by
  have hfl : ⌊a⌋ ≤ ⌊b⌋ := Int.floor_mono hab
  rcases lt_or_eq_of_le hfl with hlt | heq
  · calc pyRound a ≤ ⌊a⌋ + 1 := pyRound_le_floor_add_one a
      _ ≤ ⌊b⌋ := hlt
      _ ≤ pyRound b := floor_le_pyRound b
  · by_cases ta : a - ⌊a⌋ = 1 / 2
    · by_cases tb : b - ⌊b⌋ = 1 / 2
      · have : a = b := by
          have := heq ▸ ta
          linarith [this, tb]
        subst this; exact le_refl _
      · -- a is a tie, b is not: b > ⌊b⌋ + 1/2, so round b = ⌊b⌋ + 1
        have hb2 : (⌊b⌋ : ℚ) + 1 / 2 ≤ b := by
          have : (⌊a⌋ : ℚ) + 1 / 2 = a := by linarith
          rw [heq] at this
          linarith
        have hrb : pyRound b = ⌊b⌋ + 1 := by
          unfold pyRound
          rw [if_neg tb, round_eq]
          refine Int.floor_eq_iff.mpr ⟨?_, ?_⟩
          · push_cast; linarith
          · have := Int.lt_floor_add_one b
            push_cast; linarith
        rw [hrb]
        calc pyRound a ≤ ⌊a⌋ + 1 := pyRound_le_floor_add_one a
          _ = ⌊b⌋ + 1 := by rw [heq]
    · by_cases tb : b - ⌊b⌋ = 1 / 2
      · -- b is a tie, a is not: a < ⌊a⌋ + 1/2, so round a = ⌊a⌋
        have hra : pyRound a = ⌊a⌋ := by
          unfold pyRound
          rw [if_neg ta, round_eq]
          have ha2 : a < (⌊a⌋ : ℚ) + 1 / 2 := by
            have hb2 : b = (⌊b⌋ : ℚ) + 1 / 2 := by linarith
            have hcast : ((⌊a⌋ : ℤ) : ℚ) = ((⌊b⌋ : ℤ) : ℚ) := by rw [heq]
            have hle : a ≤ (⌊a⌋ : ℚ) + 1 / 2 := by linarith
            rcases lt_or_eq_of_le hle with h | h
            · exact h
            · exact absurd (by linarith : a - (⌊a⌋ : ℚ) = 1 / 2) ta
          have h1 : (⌊a⌋ : ℚ) ≤ a + 1 / 2 := by linarith [Int.floor_le a]
          have h2 : a + 1 / 2 < (⌊a⌋ : ℚ) + 1 := by linarith
          exact Int.floor_eq_iff.mpr ⟨by exact_mod_cast h1, by linarith⟩
        rw [hra, heq]
        exact floor_le_pyRound b
      · unfold pyRound
        rw [if_neg ta, if_neg tb, round_eq, round_eq]
        exact Int.floor_mono (by linarith)

/-! ### Lemmas about the grouping loop -/

/-- Every segment in the loop output is a non-empty detection list. -/
theorem groupedAux_ne_nil (fps T : ℚ) (ds : List PatinkinDetection) :
    ∀ (last : ℤ) (group s : List PatinkinDetection),
      s ∈ groupedAux fps T last group ds → s ≠ [] := by
  induction ds with
  | nil =>
      intro last group s hs
      unfold groupedAux at hs
      split at hs
      · simp at hs
      · next hg =>
          simp only [List.mem_singleton] at hs
          subst hs; exact hg
  | cons d ds ih =>
      intro last group s hs
      unfold groupedAux at hs
      split at hs
      · rw [List.mem_append] at hs
        rcases hs with hs | hs
        · split at hs
          · next hlen =>
              simp only [List.mem_singleton] at hs
              subst hs
              intro hnil; subst hnil; simp at hlen
          · simp at hs
        · exact ih _ _ _ hs
      · exact ih _ _ _ hs

/-- Every segment of the loop output except the final one has at least two
detections (the final flush has no length test). -/
theorem groupedAux_nonfinal_two (fps T : ℚ) (ds : List PatinkinDetection) :
    ∀ (last : ℤ) (group : List PatinkinDetection) (i : ℕ) (s : List PatinkinDetection),
      i + 1 < (groupedAux fps T last group ds).length →
      (groupedAux fps T last group ds)[i]? = some s → 2 ≤ s.length := by
  induction ds with
  | nil =>
      intro last group i s hi _
      unfold groupedAux at hi
      split at hi
      · simp at hi
      · simp at hi
  | cons d ds ih =>
      intro last group i s hi hs
      rw [groupedAux] at hi hs
      by_cases c1 : ((d.frame - last : ℤ) : ℚ) / fps > T
      · rw [if_pos c1] at hi hs
        by_cases c2 : 1 < group.length
        · rw [if_pos c2] at hi hs
          simp only [List.singleton_append] at hi hs
          cases i with
          | zero =>
              simp only [List.getElem?_cons_zero, Option.some.injEq] at hs
              subst hs; omega
          | succ j =>
              simp only [List.getElem?_cons_succ] at hs
              simp only [List.length_cons] at hi
              exact ih _ _ j s (by omega) hs
        · rw [if_neg c2] at hi hs
          simp only [List.nil_append] at hi hs
          exact ih _ _ i s hi hs
      · rw [if_neg c1] at hi hs
        exact ih _ _ i s hi hs

/-- Every detection inside a segment of the loop output comes from the open
group or from the remaining input. -/
theorem groupedAux_mem (fps T : ℚ) (ds : List PatinkinDetection) :
    ∀ (last : ℤ) (group s : List PatinkinDetection) (x : PatinkinDetection),
      s ∈ groupedAux fps T last group ds → x ∈ s → x ∈ group ∨ x ∈ ds := by
  induction ds with
  | nil =>
      intro last group s x hs hx
      unfold groupedAux at hs
      split at hs
      · simp at hs
      · simp only [List.mem_singleton] at hs
        subst hs; exact Or.inl hx
  | cons d ds ih =>
      intro last group s x hs hx
      unfold groupedAux at hs
      split at hs
      · rw [List.mem_append] at hs
        rcases hs with hs | hs
        · split at hs
          · simp only [List.mem_singleton] at hs
            subst hs; exact Or.inl hx
          · simp at hs
        · rcases ih _ _ _ x hs hx with h | h
          · simp only [List.mem_singleton] at h
            subst h; exact Or.inr (List.mem_cons_self _ _)
          · exact Or.inr (List.mem_cons_of_mem _ h)
      · rcases ih _ _ _ x hs hx with h | h
        · rcases List.mem_append.mp h with h | h
          · exact Or.inl h
          · simp only [List.mem_singleton] at h
            subst h; exact Or.inr (List.mem_cons_self _ _)
        · exact Or.inr (List.mem_cons_of_mem _ h)

/-- When no remaining gap exceeds the threshold, the loop appends everything
to the open group and the final flush emits that single segment. -/
theorem groupedAux_merge (fps T : ℚ) (ds : List PatinkinDetection) :
    ∀ (group : List PatinkinDetection) (hg : group ≠ []),
      List.Chain' (fun a b => ((b.frame - a.frame : ℤ) : ℚ) / fps ≤ T) (group ++ ds) →
      groupedAux fps T ((group.getLast hg).frame) group ds = [group ++ ds] := by
  induction ds with
  | nil =>
      intro group hg _
      unfold groupedAux
      rw [if_neg hg, List.append_nil]
  | cons d ds ih =>
      intro group hg hchain
      unfold groupedAux
      have hjun : ((d.frame - (group.getLast hg).frame : ℤ) : ℚ) / fps ≤ T := by
        obtain ⟨-, -, hj⟩ := List.chain'_append.mp hchain
        exact hj _ (by rw [List.getLast?_eq_getLast_of_ne_nil hg]; rfl) d rfl
      rw [if_neg (not_lt.mpr hjun)]
      have hg' : group ++ [d] ≠ [] := by simp
      have hlast' : (group ++ [d]).getLast hg' = d := List.getLast_append _
      have hch' : List.Chain' (fun a b => ((b.frame - a.frame : ℤ) : ℚ) / fps ≤ T)
          ((group ++ [d]) ++ ds) := by
        rw [List.append_assoc, List.singleton_append]; exact hchain
      have := ih (group ++ [d]) hg' hch'
      rw [hlast'] at this
      rw [this, List.append_assoc, List.singleton_append]

/-- Inside every segment of the loop output, consecutive detections are
within the threshold, provided the open group already satisfies this and
`last` is the frame of the last accepted detection. -/
theorem groupedAux_chain (fps T : ℚ) (ds : List PatinkinDetection) :
    ∀ (last : ℤ) (group : List PatinkinDetection),
      List.Chain' (fun a b => ((b.frame - a.frame : ℤ) : ℚ) / fps ≤ T) group →
      (∀ h : group ≠ [], (group.getLast h).frame = last) →
      ∀ s ∈ groupedAux fps T last group ds,
        List.Chain' (fun a b => ((b.frame - a.frame : ℤ) : ℚ) / fps ≤ T) s := by
  induction ds with
  | nil =>
      intro last group hgc _ s hs
      unfold groupedAux at hs
      split at hs
      · simp at hs
      · simp only [List.mem_singleton] at hs
        subst hs; exact hgc
  | cons d ds ih =>
      intro last group hgc hlast s hs
      unfold groupedAux at hs
      split at hs
      · rw [List.mem_append] at hs
        rcases hs with hs | hs
        · split at hs
          · simp only [List.mem_singleton] at hs
            subst hs; exact hgc
          · simp at hs
        · exact ih _ _ (List.chain'_singleton d) (fun _ => rfl) s hs
      · next hc =>
          refine ih _ _ ?_ ?_ s hs
          · refine List.chain'_append.mpr ⟨hgc, List.chain'_singleton d, ?_⟩
            intro x hx y hy
            simp only [List.head?_cons, Option.mem_def, Option.some.injEq] at hy
            subst hy
            rcases List.mem_getLast?_eq_getLast hx with ⟨hne, hx'⟩
            subst hx'
            rw [hlast hne]
            exact not_lt.mp hc
          · intro h
            have hx : (group ++ [d]).getLast h = d := List.getLast_append _
            rw [hx]

/-- At every boundary between consecutive segments of the loop output, the
omitted gap strictly exceeds the threshold (for frame-ascending input). -/
theorem groupedAux_boundary (fps T : ℚ) (hf : 0 < fps) (ds : List PatinkinDetection) :
    ∀ (last : ℤ) (group : List PatinkinDetection),
      List.Pairwise (fun a b => a.frame ≤ b.frame) (group ++ ds) →
      (∀ h : group ≠ [], (group.getLast h).frame = last) →
      ∀ (i : ℕ) (s₁ s₂ : List PatinkinDetection) (a b : PatinkinDetection),
        (groupedAux fps T last group ds)[i]? = some s₁ →
        (groupedAux fps T last group ds)[i + 1]? = some s₂ →
        s₁.getLast? = some a → s₂.head? = some b →
        T < ((b.frame - a.frame : ℤ) : ℚ) / fps := by
  induction ds with
  | nil =>
      intro last group _ _ i s₁ s₂ a b _ h2 _ _
      unfold groupedAux at h2
      have hlen := (List.getElem?_eq_some.mp h2).1
      split at hlen
      · simp at hlen
      · simp only [List.length_singleton] at hlen; omega
  | cons d ds ih =>
      intro last group hpw hlast i s₁ s₂ a b h1 h2 ha hb
      rw [groupedAux] at h1 h2
      by_cases c1 : ((d.frame - last : ℤ) : ℚ) / fps > T
      · rw [if_pos c1] at h1 h2
        by_cases c2 : 1 < group.length
        · rw [if_pos c2] at h1 h2
          simp only [List.singleton_append] at h1 h2
          have hpw' : List.Pairwise (fun a b : PatinkinDetection => a.frame ≤ b.frame)
              ([d] ++ ds) := by
            rw [List.singleton_append]
            exact (List.pairwise_append.mp hpw).2.1
          cases i with
          | zero =>
              simp only [List.getElem?_cons_zero, Option.some.injEq] at h1
              rw [← h1] at ha
              simp only [List.getElem?_cons_succ] at h2
              -- `a` is the last accepted detection: its frame is `last`
              have hgne : group ≠ [] := by intro hnil; subst hnil; simp at c2
              have ha' : a = group.getLast hgne := by
                rcases List.mem_getLast?_eq_getLast ha with ⟨h', hx⟩
                subst hx; rfl
              have haf : a.frame = last := by rw [ha']; exact hlast hgne
              -- `b` is `d` or a later detection, so `d.frame ≤ b.frame`
              have hs₂mem : s₂ ∈ groupedAux fps T d.frame [d] ds :=
                List.getElem?_mem h2
              have hbmem : b ∈ s₂ := List.mem_of_mem_head? hb
              have hdb : d.frame ≤ b.frame := by
                rcases groupedAux_mem fps T ds d.frame [d] s₂ b hs₂mem hbmem with h | h
                · simp only [List.mem_singleton] at h; subst h; exact le_refl _
                · have h' := hpw'
                  rw [List.singleton_append, List.pairwise_cons] at h'
                  exact h'.1 b h
              calc T < ((d.frame - last : ℤ) : ℚ) / fps := c1
                _ ≤ ((b.frame - a.frame : ℤ) : ℚ) / fps := by
                    rw [div_le_div_iff_of_pos_right hf]
                    rw [haf]
                    exact_mod_cast sub_le_sub_right hdb last
          | succ j =>
              simp only [List.getElem?_cons_succ] at h1 h2
              exact ih d.frame [d] hpw' (fun _ => rfl) j s₁ s₂ a b h1 h2 ha hb
        · rw [if_neg c2] at h1 h2
          simp only [List.nil_append] at h1 h2
          have hpw' : List.Pairwise (fun a b : PatinkinDetection => a.frame ≤ b.frame)
              ([d] ++ ds) := by
            rw [List.singleton_append]
            exact (List.pairwise_append.mp hpw).2.1
          exact ih d.frame [d] hpw' (fun _ => rfl) i s₁ s₂ a b h1 h2 ha hb
      · rw [if_neg c1] at h1 h2
        have hpw' : List.Pairwise (fun a b : PatinkinDetection => a.frame ≤ b.frame)
            ((group ++ [d]) ++ ds) := by
          rw [List.append_assoc, List.singleton_append]; exact hpw
        refine ih d.frame (group ++ [d]) hpw' ?_ i s₁ s₂ a b h1 h2 ha hb
        intro h
        have hx : (group ++ [d]).getLast h = d := List.getLast_append _
        rw [hx]

/-! ### Lemmas about the loader -/

theorem splitOnChar_ne_nil (c : Char) (l : List Char) : splitOnChar c l ≠ [] := by
  induction l with
  | nil => simp [splitOnChar]
  | cons x xs ih =>
      unfold splitOnChar
      split
      · simp
      · cases h : splitOnChar c xs with
        | nil => simp
        | cons g gs => simp

/-- Appending a separator appends one empty chunk. -/
theorem splitOnChar_concat_sep (c : Char) (l : List Char) :
    splitOnChar c (l ++ [c]) = splitOnChar c l ++ [[]] := by
  induction l with
  | nil => simp [splitOnChar]
  | cons x xs ih =>
      by_cases hx : x = c
      · subst hx
        simp only [List.cons_append]
        unfold splitOnChar
        rw [if_pos rfl, if_pos rfl, ih]
        rfl
      · simp only [List.cons_append]
        unfold splitOnChar
        rw [if_neg hx, if_neg hx, ih]
        cases h : splitOnChar c xs with
        | nil => exact absurd h (splitOnChar_ne_nil c xs)
        | cons g gs => simp

/-- `mapM` over `Option` fails when the appended last element fails. -/
theorem mapM_concat_none {α β : Type} (f : α → Option β) (x : α) (hx : f x = none)
    (l : List α) : (l ++ [x]).mapM f = none := by
  induction l with
  | nil => rw [List.nil_append, List.mapM_cons, hx]; rfl
  | cons y ys ih =>
      rw [List.cons_append, List.mapM_cons, ih]
      cases f y <;> rfl

theorem pyFileLines_concat_empty (chunks : List (List Char)) :
    pyFileLines (chunks ++ [[]]) = chunks := by
  unfold pyFileLines
  rw [List.getLast?_concat, if_pos rfl, List.dropLast_concat]

/-- An empty physical line does not parse as a detection line
(`int('')` raises `ValueError`). -/
theorem parseDetectionLine_nil : parseDetectionLine [] = none := rfl

/-! ### Lemmas about the detection recorder -/

/-- Every record emitted by the frame loop is for a frame at or after the
current read position. -/
theorem processAux_pos_le (inv : ℚ) (obs : List FrameObs) :
    ∀ (skip : ℕ) (pos : ℤ) (r : DetRecord), r ∈ processAux inv skip pos obs →
      pos ≤ r.frame := by
  induction obs with
  | nil => intro skip pos r hr; simp [processAux] at hr
  | cons fr frs ih =>
      intro skip pos r hr
      unfold processAux at hr
      split at hr
      · rw [List.mem_append] at hr
        rcases hr with hr | hr
        · split at hr
          · simp only [List.mem_singleton] at hr
            subst hr; exact le_refl _
          · simp at hr
        · exact le_trans (by omega) (ih _ _ _ hr)
      · exact le_trans (by omega) (ih _ _ _ hr)

/-- The frame loop emits records with strictly increasing frame numbers. -/
theorem processAux_pairwise (inv : ℚ) (obs : List FrameObs) :
    ∀ (skip : ℕ) (pos : ℤ),
      List.Pairwise (fun r₁ r₂ : DetRecord => r₁.frame < r₂.frame)
        (processAux inv skip pos obs) := by
  induction obs with
  | nil => intro skip pos; simp [processAux]
  | cons fr frs ih =>
      intro skip pos
      unfold processAux
      split
      · refine List.pairwise_append.mpr ⟨?_, ih _ _, ?_⟩
        · split
          · exact List.pairwise_singleton _ _
          · exact List.Pairwise.nil
        · intro r₁ h₁ r₂ h₂
          have hr₂ : pos + 1 ≤ r₂.frame := processAux_pos_le inv frs _ _ r₂ h₂
          split at h₁
          · simp only [List.mem_singleton] at h₁
            subst h₁
            show pos < r₂.frame
            omega
          · simp at h₁
      · exact ih _ _

/-! ### Concrete inputs used by the claims -/

/-- The detection rectangle `(top=100, right=200, bottom=300, left=50)` used
by the spec scenarios, in Rectangle convention. -/
def rectA : Rectangle := Rectangle.mk 50 100 200 300

/-- Detections at frames 10 and 50 only. -/
def c1dets : List PatinkinDetection := [⟨10, rectA⟩, ⟨50, rectA⟩]

/-- Detections at frames 10, 11, 12, 13 (adjacent pairs with gaps exactly at
the one-frame threshold). -/
def c6dets : List PatinkinDetection := [⟨10, rectA⟩, ⟨11, rectA⟩, ⟨12, rectA⟩, ⟨13, rectA⟩]

/-- Detections at frames 10, 11 and 50, 51 (two clear runs). -/
def c7dets : List PatinkinDetection := [⟨10, rectA⟩, ⟨11, rectA⟩, ⟨50, rectA⟩, ⟨51, rectA⟩]

/-- A two-detection segment spanning frames 10 to 20. -/
def c4dets : List PatinkinDetection := [⟨10, rectA⟩, ⟨20, rectA⟩]

theorem c4dets_ne_nil : c4dets ≠ [] := by simp [c4dets]

/-- A well-formed detection log (header plus one detection line), without its
final newline terminator. -/
def c5log : List Char := "30\t1920\t1080\n10\t100\t200\t300\t50".toList

/-! ### Claim theorems -/

/-- C2 counterexample: passing `h_factor = 0` explicitly does not produce a
zero half-height; Python's `h or w` treats `0` as absent and scales the
half-height by `w_factor` instead.  On the square `(0,0,2,2)` with factors
`(2, 0)` the result is `(-1,-1,3,3)`, whose center-to-corner y-offset is `2`,
not `0 * 1 = 0` as the claim requires. -/
theorem C2_counterexample :
    (Rectangle.mk 0 0 2 2).scale_from_center 2 (some 0) = Rectangle.mk (-1) (-1) 3 3 ∧
    ((Rectangle.mk 0 0 2 2).scale_from_center 2 (some 0)).center_to_bottom_right.2 ≠
      0 * (Rectangle.mk 0 0 2 2).center_to_bottom_right.2 := by
  norm_num [Rectangle.scale_from_center, Rectangle.center_to_bottom_right,
    Rectangle.center, pyMidpoint]

/-- C2 (amended): `scale_from_center` keeps the center and multiplies the
half-width by `w_factor`; the half-height is multiplied by `h_factor` when
`h_factor` is given and non-zero, and by `w_factor` when `h_factor` is
omitted or equal to `0` (Python `h or w` falsiness). -/
theorem C2_amended_scale (r : Rectangle) (w : ℚ) (h : Option ℚ) :
    (r.scale_from_center w h).center = r.center ∧
    (r.scale_from_center w h).center_to_bottom_right.1 =
      w * r.center_to_bottom_right.1 ∧
    (r.scale_from_center w h).center_to_bottom_right.2 =
      (match h with | none => w | some hv => if hv = 0 then w else hv) *
        r.center_to_bottom_right.2 := by
  cases h with
  | none =>
      refine ⟨?_, ?_, ?_⟩ <;>
        simp only [Rectangle.scale_from_center, Rectangle.center,
          Rectangle.center_to_bottom_right, pyMidpoint_eq, Prod.mk.injEq]
      · constructor <;> ring
      · ring
      · ring
  | some hv =>
      by_cases hv0 : hv = 0 <;>
        refine ⟨?_, ?_, ?_⟩ <;>
          simp only [Rectangle.scale_from_center, Rectangle.center,
            Rectangle.center_to_bottom_right, pyMidpoint_eq, Prod.mk.injEq, hv0,
            eq_self_iff_true, if_true, if_false, ite_true, ite_false]
      · constructor <;> ring
      · ring
      · ring
      · constructor <;> ring
      · ring
      · ring

/-- C3 counterexample: a rectangle lying entirely to the right of the frame
(`x_min = 100 > W = 80`) keeps `x_min = 100` but gets `x_max` clamped to 80,
so after `clip_to` the invariant `x_min ≤ x_max` fails. -/
theorem C3_counterexample :
    (Rectangle.mk 100 0 200 50).clip_to 80 80 = Rectangle.mk 100 0 80 50 ∧
    ¬ ((Rectangle.mk 100 0 200 50).clip_to 80 80).x_min ≤
        ((Rectangle.mk 100 0 200 50).clip_to 80 80).x_max := by
  norm_num [Rectangle.clip_to]

/-- C3 (amended): `round` preserves the ordering invariant whenever the input
already satisfies it, and `clip_to(W, H)` establishes it provided the frame
bounds are non-negative and the (ordered) rectangle is not entirely outside
the frame band (`x_min ≤ W`, `0 ≤ x_max`, and the y analogues). -/
theorem C3_amended_invariants (r : Rectangle) (W H : ℚ) :
    (r.x_min ≤ r.x_max → r.y_min ≤ r.y_max →
      (Rectangle.round r).x_min ≤ (Rectangle.round r).x_max ∧
      (Rectangle.round r).y_min ≤ (Rectangle.round r).y_max) ∧
    (0 ≤ W → 0 ≤ H → r.x_min ≤ r.x_max → r.y_min ≤ r.y_max →
      r.x_min ≤ W → 0 ≤ r.x_max → r.y_min ≤ H → 0 ≤ r.y_max →
      (r.clip_to W H).x_min ≤ (r.clip_to W H).x_max ∧
      (r.clip_to W H).y_min ≤ (r.clip_to W H).y_max) := by
  constructor
  · intro hx hy
    simp only [Rectangle.round]
    exact ⟨by exact_mod_cast pyRound_mono hx, by exact_mod_cast pyRound_mono hy⟩
  · intro hW hH hx hy hxW hx0 hyH hy0
    simp only [Rectangle.clip_to]
    constructor <;> split_ifs <;> linarith

/-- Witness for C3: a concrete ordered rectangle and frame. -/
theorem C3_witness :
    ((Rectangle.mk (1 / 2) (1 / 2) (5 / 2) (7 / 2)).round.x_min ≤
        (Rectangle.mk (1 / 2) (1 / 2) (5 / 2) (7 / 2)).round.x_max ∧
      (Rectangle.mk (1 / 2) (1 / 2) (5 / 2) (7 / 2)).round.y_min ≤
        (Rectangle.mk (1 / 2) (1 / 2) (5 / 2) (7 / 2)).round.y_max) ∧
    (((Rectangle.mk (1 / 2) (1 / 2) (5 / 2) (7 / 2)).clip_to 2 2).x_min ≤
        ((Rectangle.mk (1 / 2) (1 / 2) (5 / 2) (7 / 2)).clip_to 2 2).x_max ∧
      ((Rectangle.mk (1 / 2) (1 / 2) (5 / 2) (7 / 2)).clip_to 2 2).y_min ≤
        ((Rectangle.mk (1 / 2) (1 / 2) (5 / 2) (7 / 2)).clip_to 2 2).y_max) :=
  ⟨(C3_amended_invariants (Rectangle.mk (1 / 2) (1 / 2) (5 / 2) (7 / 2)) 2 2).1
      (by norm_num) (by norm_num),
   (C3_amended_invariants (Rectangle.mk (1 / 2) (1 / 2) (5 / 2) (7 / 2)) 2 2).2
      (by norm_num) (by norm_num) (by norm_num) (by norm_num) (by norm_num)
      (by norm_num) (by norm_num) (by norm_num)⟩

/-- C8: the rectangle `(10,10,100,100)` scaled from center by `(2.0, 1.0)`,
clipped to an 80 × 80 frame and rounded, is `(0, 10, 80, 80)`: only the
out-of-bounds edges are clamped. -/
theorem C8_scenario :
    (((Rectangle.mk 10 10 100 100).scale_from_center 2 (some 1)).clip_to 80 80).round
      = Rectangle.mk 0 10 80 80 := by
  norm_num [Rectangle.scale_from_center, Rectangle.clip_to, Rectangle.round,
    pyMidpoint, pyRound, round_eq]

/-- C9: `clip_to(W, H)` is idempotent. -/
theorem C9_clip_idempotent (r : Rectangle) (W H : ℚ) :
    (r.clip_to W H).clip_to W H = r.clip_to W H := by
  simp only [Rectangle.clip_to, Rectangle.mk.injEq]
  refine ⟨?_, ?_, ?_, ?_⟩ <;> split_ifs <;> rfl

/-- C1 counterexample: with detections at frames 10 and 50 only, `fps = 30`
and `max_gap_seconds = 0.2`, the grouping emits one singleton segment — the
final flush (`if detection_group:`) has no `≥ 2` length test — rather than
the zero segments the claim requires. -/
theorem C1_counterexample :
    grouped 30 (1 / 5) c1dets = [[⟨50, rectA⟩]] ∧
    (grouped 30 (1 / 5) c1dets).map List.length = [1] := by
  constructor <;> norm_num [grouped, groupedAux, c1dets]

/-- C1 (amended): every emitted segment is non-empty, and every segment
except the final one has at least two detections; the final flush emits any
non-empty trailing group, singletons included. -/
theorem C1_amended_min_lengths (fps g : ℚ) (dets : List PatinkinDetection) :
    (∀ s ∈ grouped fps g dets, s ≠ []) ∧
    (∀ (i : ℕ) (s : List PatinkinDetection),
      i + 1 < (grouped fps g dets).length → (grouped fps g dets)[i]? = some s →
      2 ≤ s.length) :=
  ⟨fun s hs => groupedAux_ne_nil fps _ dets 0 [] s hs,
   fun i s hi hs => groupedAux_nonfinal_two fps _ dets 0 [] i s hi hs⟩

/-- Witness for C1 (amended) on the two-run input. -/
theorem C1_amended_witness :
    ([⟨10, rectA⟩, ⟨11, rectA⟩] : List PatinkinDetection) ≠ [] ∧
    2 ≤ ([⟨10, rectA⟩, ⟨11, rectA⟩] : List PatinkinDetection).length :=
  ⟨(C1_amended_min_lengths 30 (1 / 5) c7dets).1 _
      (by norm_num [grouped, groupedAux, c7dets]),
   (C1_amended_min_lengths 30 (1 / 5) c7dets).2 0 _
      (by norm_num [grouped, groupedAux, c7dets, List.cons_ne_nil])
      (by norm_num [grouped, groupedAux, c7dets, List.cons_ne_nil])⟩

/-- C6: the grouping splits only on gaps strictly greater than the effective
threshold `max(max_gap_seconds, 1/fps)`: whenever every consecutive gap of
the input is at most that threshold (equality included), all detections merge
into one single segment. -/
theorem C6_merges_within_threshold (fps g : ℚ) (_hf : 0 < fps)
    (dets : List PatinkinDetection) (hne : dets ≠ [])
    (hchain : List.Chain' (fun a b =>
      ((b.frame - a.frame : ℤ) : ℚ) / fps ≤ max g (1 / fps)) dets) :
    grouped fps g dets = [dets] := by
  cases dets with
  | nil => exact absurd rfl hne
  | cons d ds =>
      unfold grouped groupedAux
      have hg1 : ([d] : List PatinkinDetection) ≠ [] := by simp
      have hkey := groupedAux_merge fps (max g (1 / fps)) ds [d] hg1 (by simpa using hchain)
      have hlast : (([d] : List PatinkinDetection).getLast hg1).frame = d.frame := rfl
      rw [hlast] at hkey
      by_cases c1 : ((d.frame - 0 : ℤ) : ℚ) / fps > max g (1 / fps)
      · rw [if_pos c1]
        simpa using hkey
      · rw [if_neg c1]
        simpa using hkey

/-- Witness for C6: the spec scenario — detections `10, 11` and `12, 13`,
`fps = 30`, `max_gap_seconds = 0` (clamped to `1/30`), every gap exactly at
the threshold — produces one merged segment. -/
theorem C6_witness : grouped 30 0 c6dets = [c6dets] := by
  have hmax : max (0 : ℚ) (1 / 30) = 1 / 30 := max_eq_right (by norm_num)
  refine C6_merges_within_threshold 30 0 (by norm_num) c6dets (by simp [c6dets]) ?_
  simp only [c6dets, List.chain'_cons, List.chain'_singleton, hmax, and_true]
  norm_num

/-- C7: within every emitted segment consecutive detections are at most the
effective threshold apart; across every boundary between consecutive emitted
segments the omitted gap strictly exceeds the threshold (for input ordered
ascending by frame index). -/
theorem C7_intra_inter_gaps (fps g : ℚ) (hf : 0 < fps) (dets : List PatinkinDetection)
    (hasc : List.Pairwise (fun a b : PatinkinDetection => a.frame ≤ b.frame) dets) :
    (∀ s ∈ grouped fps g dets,
      List.Chain' (fun a b =>
        ((b.frame - a.frame : ℤ) : ℚ) / fps ≤ max g (1 / fps)) s) ∧
    (∀ (i : ℕ) (s₁ s₂ : List PatinkinDetection) (a b : PatinkinDetection),
      (grouped fps g dets)[i]? = some s₁ → (grouped fps g dets)[i + 1]? = some s₂ →
      s₁.getLast? = some a → s₂.head? = some b →
      max g (1 / fps) < ((b.frame - a.frame : ℤ) : ℚ) / fps) := by
  constructor
  · intro s hs
    exact groupedAux_chain fps _ dets 0 [] (by simp) (fun h => absurd rfl h) s hs
  · intro i s₁ s₂ a b h1 h2 ha hb
    exact groupedAux_boundary fps _ hf dets 0 [] (by simpa using hasc)
      (fun h => absurd rfl h) i s₁ s₂ a b h1 h2 ha hb

/-- Witness for C7 on the two-run input `10, 11, 50, 51`. -/
theorem C7_witness :
    (∀ s ∈ grouped 30 (1 / 5) c7dets,
      List.Chain' (fun a b =>
        ((b.frame - a.frame : ℤ) : ℚ) / 30 ≤ max (1 / 5) (1 / 30)) s) ∧
    (∀ (i : ℕ) (s₁ s₂ : List PatinkinDetection) (a b : PatinkinDetection),
      (grouped 30 (1 / 5) c7dets)[i]? = some s₁ →
      (grouped 30 (1 / 5) c7dets)[i + 1]? = some s₂ →
      s₁.getLast? = some a → s₂.head? = some b →
      max (1 / 5) (1 / 30) < ((b.frame - a.frame : ℤ) : ℚ) / 30) :=
  C7_intra_inter_gaps 30 (1 / 5) (by norm_num) c7dets
    (by simp only [c7dets, List.pairwise_cons, List.Pairwise.nil, List.mem_cons,
          List.mem_singleton, List.not_mem_nil]
        norm_num)

/-- C4 counterexample: `extract_ffmpeg` computes `pad_frames` with `int()`
(truncation), not `round()`.  With `fps = 1` and `pad_seconds = 0.9` the code
uses `int(0.9) = 0` extra frames while the claimed `round(0.9) = 1` would
give a different output-name frame count. -/
theorem C4_counterexample :
    extract_out_frames 1 c4dets c4dets_ne_nil (9 / 10) = 10 ∧
    framesSpan c4dets c4dets_ne_nil + 2 * pyRound ((9 / 10) * 1) = 12 ∧
    extract_out_frames 1 c4dets c4dets_ne_nil (9 / 10) ≠
      framesSpan c4dets c4dets_ne_nil + 2 * pyRound ((9 / 10) * 1) := by
  have h1 : extract_out_frames 1 c4dets c4dets_ne_nil (9 / 10) = 10 := by
    norm_num [extract_out_frames, extract_pad_frames, framesSpan, frame_start,
      frame_end, pyTrunc, c4dets]
  have h2 : framesSpan c4dets c4dets_ne_nil + 2 * pyRound ((9 / 10) * 1) = 12 := by
    norm_num [framesSpan, frame_start, frame_end, pyRound, round_eq, c4dets]
  exact ⟨h1, h2, by rw [h1, h2]; norm_num⟩

/-- C4 (amended): the `h:m:s` value formatted into `-ss` reconstructs exactly
to `time_start_seconds - pad_seconds` (no clamping to `≥ 0`), and the
output-name frame count is `(frame_end - frame_start) + 2 * pad_frames` with
`pad_frames = int(pad_seconds * fps)` (truncation toward zero). -/
theorem C4_amended_seek_and_count (fps : ℚ) (dets : List PatinkinDetection)
    (h : dets ≠ []) (pad : ℚ) :
    3600 * (as_ffmpeg_seek fps dets h pad).1 + 60 * (as_ffmpeg_seek fps dets h pad).2.1 +
        (as_ffmpeg_seek fps dets h pad).2.2 = time_start_seconds fps dets h - pad ∧
    extract_out_frames fps dets h pad =
      frame_end dets h - frame_start dets h + 2 * pyTrunc (pad * fps) := by
  constructor
  · simp only [as_ffmpeg_seek]
    ring
  · simp only [extract_out_frames, extract_pad_frames, framesSpan]
    ring

/-- Witness for C4 (amended) at `fps = 30`, segment frames 10 to 20 and
`pad_seconds = 2` (the unclamped seek value is negative there). -/
theorem C4_witness :
    3600 * (as_ffmpeg_seek 30 c4dets c4dets_ne_nil 2).1 +
        60 * (as_ffmpeg_seek 30 c4dets c4dets_ne_nil 2).2.1 +
        (as_ffmpeg_seek 30 c4dets c4dets_ne_nil 2).2.2 =
      time_start_seconds 30 c4dets c4dets_ne_nil - 2 ∧
    extract_out_frames 30 c4dets c4dets_ne_nil 2 =
      frame_end c4dets c4dets_ne_nil - frame_start c4dets c4dets_ne_nil +
        2 * pyTrunc (2 * 30) :=
  C4_amended_seek_and_count 30 c4dets c4dets_ne_nil 2

/-- C10: the recorder writes at most one record per processed frame at the
strictly increasing capture position, so the log rows have strictly
increasing frame indices — in particular they are ordered ascending, which is
the loader precondition. -/
theorem C10_recorder_ordered (width height : ℚ) (obs : List FrameObs) :
    List.Pairwise (fun r₁ r₂ : DetRecord => r₁.frame < r₂.frame)
      (process_video width height obs) ∧
    List.Pairwise (fun r₁ r₂ : DetRecord => r₁.frame ≤ r₂.frame)
      (process_video width height obs) :=
  ⟨processAux_pairwise _ obs _ _, (processAux_pairwise _ obs _ _).imp le_of_lt⟩

/-- C5 counterexample: the log consisting of a header and one detection line
loads, but appending one blank line makes the loader fail (`int('')` raises
`ValueError`); blank lines are not tolerated or ignored. -/
theorem C5_counterexample :
    (loadPatinkinData (c5log ++ ['\n'])).isSome = true ∧
    loadPatinkinData (c5log ++ ['\n', '\n']) = none := by
  constructor <;> decide

/-- C5 (amended): the loader does not tolerate trailing blank lines.  For
every log that loads successfully in its newline-terminated form, appending
one further blank line makes loading fail with a parse error (`int('')`). -/
theorem C5_amended_blank_line_fails (s : List Char)
    (_h : (loadPatinkinData (s ++ ['\n'])).isSome = true) :
    loadPatinkinData (s ++ ['\n', '\n']) = none := by
  have hsplit1 : splitOnChar '\n' (s ++ ['\n']) = splitOnChar '\n' s ++ [[]] :=
    splitOnChar_concat_sep '\n' s
  have hsplit2 : splitOnChar '\n' (s ++ ['\n', '\n'])
      = (splitOnChar '\n' s ++ [[]]) ++ [[]] := by
    have hx : s ++ ['\n', '\n'] = (s ++ ['\n']) ++ ['\n'] := by simp
    rw [hx, splitOnChar_concat_sep, hsplit1]
  unfold loadPatinkinData
  rw [hsplit2, pyFileLines_concat_empty]
  cases hC : splitOnChar '\n' s with
  | nil => exact absurd hC (splitOnChar_ne_nil '\n' s)
  | cons header rest =>
      have hfail : (rest ++ [[]]).mapM parseDetectionLine = none :=
        mapM_concat_none parseDetectionLine [] parseDetectionLine_nil rest
      rw [List.cons_append, loadLines, hfail]
      cases parseHeaderLine header <;> rfl

/-- Witness for C5 (amended) on the concrete log. -/
theorem C5_witness : loadPatinkinData (c5log ++ ['\n', '\n']) = none :=
  C5_amended_blank_line_fails c5log (by decide)

end Patinkin

